import Mathlib

/-!
Verification development for the zigpy-znp request/response correlation core.

The definitions below are a shallow embedding of `zigpy_znp/api.py` and
`zigpy_znp/config.py`.  Commands and their `matches` relation live in
`zigpy_znp/types` (not part of the sources at hand), so the command data
model is modelled from the specification (section 3, "Matching"): a command
is a class identity together with a list of schema fields, each either
bound to a value or absent ("don't care").
-/

namespace Znp

/-- Modelled from the spec: a schema field value.  The primitive-type
catalog (section 4.2) is abstracted to integer-valued fields and
byte-string fields, which is all the claims need. -/
inductive FieldVal
  | natV (n : Nat)
  | bytesV (bs : List Nat)
deriving DecidableEq, Repr

/-- Modelled from the spec: a command instance (section 3, "Command
instance"): a command class identity plus one slot per schema field.
`none` models an absent ("don't care") field of an instance built with
`partial=True`; `some v` a bound field. -/
structure Command where
  cls : Nat
  fields : List (Option FieldVal)
deriving DecidableEq, Repr

/-- Modelled from the spec: per-field acceptance used by `matches`:
an absent field accepts anything, a bound field accepts exactly its
own value. -/
def fieldMatches : Option FieldVal → Option FieldVal → Bool
  | none, _ => true
  | some a, some b => a == b
  | some _, none => false

/-- Modelled from the spec: pointwise `fieldMatches` over two schemas of
equal length. -/
def fieldsMatch : List (Option FieldVal) → List (Option FieldVal) → Bool
  | [], [] => true
  | a :: as1, b :: bs1 => fieldMatches a b && fieldsMatch as1 bs1
  | _ :: _, [] => false
  | [], _ :: _ => false

/-- Modelled from the spec (section 3): `A.matches(B)` iff they are the
same command class and, for every schema field, `A`'s value is absent or
equal to `B`'s value. -/
def Command.matches (a b : Command) : Bool :=
  a.cls == b.cls && fieldsMatch a.fields b.fields

/-- A command instance is complete when every schema field is bound. -/
def Command.isComplete (c : Command) : Bool :=
  c.fields.all Option.isSome

theorem fieldMatches_refl (a : Option FieldVal) : fieldMatches a a = true := by
  cases a <;> simp [fieldMatches]

theorem fieldMatches_trans {a b c : Option FieldVal}
    (h1 : fieldMatches a b = true) (h2 : fieldMatches b c = true) :
    fieldMatches a c = true := by
  cases a with
  | none => simp [fieldMatches]
  | some av =>
    cases b with
    | none => simp [fieldMatches] at h1
    | some bv =>
      cases c with
      | none => simp [fieldMatches] at h2
      | some cv =>
        simp [fieldMatches] at h1 h2 ⊢
        exact h1.trans h2

theorem fieldsMatch_refl (a : List (Option FieldVal)) :
    fieldsMatch a a = true := by
  induction a with
  | nil => rfl
  | cons x xs ih => simp [fieldsMatch, fieldMatches_refl, ih]

theorem fieldsMatch_trans :
    ∀ {a b c : List (Option FieldVal)},
      fieldsMatch a b = true → fieldsMatch b c = true →
      fieldsMatch a c = true := by
  intro a
  induction a with
  | nil =>
    intro b c h1 h2
    cases b with
    | nil => exact h2
    | cons y ys => simp [fieldsMatch] at h1
  | cons x xs ih =>
    intro b c h1 h2
    cases b with
    | nil => simp [fieldsMatch] at h1
    | cons y ys =>
      cases c with
      | nil => simp [fieldsMatch] at h2
      | cons z zs =>
        simp [fieldsMatch] at h1 h2 ⊢
        exact ⟨fieldMatches_trans h1.1 h2.1, ih h1.2 h2.2⟩

theorem matches_refl (a : Command) : a.matches a = true := by
  simp [Command.matches, fieldsMatch_refl]

theorem matches_trans {a b c : Command}
    (h1 : a.matches b = true) (h2 : b.matches c = true) :
    a.matches c = true := by
  simp [Command.matches] at h1 h2 ⊢
  exact ⟨h1.1.trans h2.1, fieldsMatch_trans h1.2 h2.2⟩

/-- Inner loop of `_deduplicate_commands` (`api.py`): scan the accumulated
`maximal_commands` list; if an element matches the new command, the new
command is dropped; if the new command matches an element, it replaces
that element in place; if neither, keep scanning, appending at the end
when the scan finds no comparable element. -/
def insertCommand : List Command → Command → List Command
  | [], c => [c]
  | o :: rest, c =>
    if o.matches c then o :: rest
    else if c.matches o then c :: rest
    else o :: insertCommand rest c

/-- Embedding of `_deduplicate_commands` from `api.py`: fold every supplied command
into the accumulated list via `insertCommand`. -/
def deduplicate_commands (commands : List Command) : List Command :=
  commands.foldl insertCommand []

/-- The set of commands a list of matching commands accepts: some element
matches the candidate. -/
def accepts (l : List Command) (r : Command) : Bool :=
  l.any (fun c => c.matches r)

theorem accepts_insertCommand (m : List Command) (c r : Command) :
    accepts (insertCommand m c) r = (accepts m r || c.matches r) := by
  induction m with
  | nil => simp [insertCommand, accepts]
  | cons o rest ih =>
    by_cases h1 : o.matches c = true
    · simp only [insertCommand, h1, if_true]
      cases hc : c.matches r with
      | false => simp
      | true =>
        have ho : o.matches r = true := matches_trans h1 hc
        simp [accepts, ho]
    · by_cases h2 : c.matches o = true
      · simp only [insertCommand, h1, if_false, h2, if_true]
        cases ho : o.matches r with
        | false => simp [accepts, ho, Bool.or_comm]
        | true =>
          have hc : c.matches r = true := matches_trans h2 ho
          simp [accepts, hc, ho]
      · simp only [insertCommand, h1, if_false, h2, if_false]
        simp [accepts] at ih ⊢
        rw [ih]
        simp [Bool.or_assoc]

theorem accepts_foldl (l : List Command) :
    ∀ (acc : List Command) (r : Command),
      accepts (l.foldl insertCommand acc) r = (accepts acc r || accepts l r) := by
  induction l with
  | nil => intro acc r; simp [accepts]
  | cons c cs ih =>
    intro acc r
    simp only [List.foldl_cons]
    rw [ih]
    rw [accepts_insertCommand]
    simp [accepts, Bool.or_assoc]

theorem deduplicate_preserves_accepts (l : List Command) (r : Command) :
    accepts (deduplicate_commands l) r = accepts l r := by
  unfold deduplicate_commands
  rw [accepts_foldl]
  simp [accepts]

/-- Concrete commands exhibiting the failure of maximality: `cexA` is
fully absent, `cexB` and `cexC` bind the single field to distinct
values. -/
def cexA : Command := ⟨0, [none]⟩

def cexB : Command := ⟨0, [some (FieldVal.natV 1)]⟩

def cexC : Command := ⟨0, [some (FieldVal.natV 2)]⟩

/-- Claim C1 (counterexample): deduplicating `[cexB, cexC, cexA]` yields
`[cexA, cexC]`, in which the remaining element `cexA` matches the other
remaining element `cexC`; the result is not an antichain under `matches`,
refuting the maximality part of the claim. -/
theorem c1_dedup_not_antichain :
    deduplicate_commands [cexB, cexC, cexA] = [cexA, cexC] ∧
    ∃ x ∈ deduplicate_commands [cexB, cexC, cexA],
      ∃ y ∈ deduplicate_commands [cexB, cexC, cexA],
        x ≠ y ∧ x.matches y = true := by
  decide

/-- Claim C1 (amended): for every list of partial commands, the
deduplicated matching set accepts exactly the same set of complete
commands as the original list; the maximality clause of the original
claim is dropped, since a replacement can leave behind an element that
the replacing command itself matches. -/
theorem c1_dedup_preserves_complete_accepts
    (l : List Command) (r : Command) (h : r.isComplete = true) :
    accepts (deduplicate_commands l) r = true ↔ accepts l r = true := by
  rw [deduplicate_preserves_accepts]

/-- Claim C1 (amended) witness at a concrete complete command. -/
theorem c1_dedup_preserves_complete_accepts_witness :
    (Command.isComplete ⟨0, [some (FieldVal.natV 2)]⟩ = true) ∧
    (accepts (deduplicate_commands [cexB, cexC, cexA]) ⟨0, [some (FieldVal.natV 2)]⟩ = true ↔
      accepts [cexB, cexC, cexA] ⟨0, [some (FieldVal.natV 2)]⟩ = true) :=
  ⟨by decide,
   c1_dedup_preserves_complete_accepts [cexB, cexC, cexA] ⟨0, [some (FieldVal.natV 2)]⟩
     (by decide)⟩

/-- State of an `asyncio.Future` slot owned by a one-shot listener:
pending, resolved with a command, or cancelled. -/
inductive FutState
  | pending
  | resolvedF (c : Command)
  | cancelledF

/-- State predicate `future.done()`: true once resolved or cancelled. -/
def FutState.done : FutState → Bool
  | .pending => false
  | _ => true

/-- The resolution side of a listener: a one-shot future slot
(`OneShotResponseListener`) or a user callback
(`CallbackResponseListener`).  A callback may raise, modelled by
returning `Except.error`. -/
inductive ListenerKind
  | oneShot (fut : FutState)
  | callbackK (cb : Command → Except Unit Unit)

/-- Embedding of `BaseResponseListener` from `api.py`: a matching set of commands plus
the resolution kind. -/
structure Listener where
  matching : List Command
  kind : ListenerKind

/-- The `OneShotResponseListener` constructor: the attrs converter runs
`_deduplicate_commands` over the supplied commands; the future starts
pending. -/
def mkOneShot (cmds : List Command) : Listener :=
  ⟨deduplicate_commands cmds, ListenerKind.oneShot FutState.pending⟩

/-- The `CallbackResponseListener` constructor, with the same converter. -/
def mkCallback (cmds : List Command) (cb : Command → Except Unit Unit) : Listener :=
  ⟨deduplicate_commands cmds, ListenerKind.callbackK cb⟩

/-- Embedding of `BaseResponseListener.resolve` with the subclass `_resolve` bodies
inlined (`api.py`): no matching command means no resolution; a one-shot
with a done future logs and reports `False` leaving the slot untouched;
a pending one-shot records the response; a callback runs the user
function, catching any exception, and always reports `True`. -/
def Listener.resolve (l : Listener) (response : Command) : Bool × Listener :=
  if !(accepts l.matching response) then (false, l)
  else
    match l.kind with
    | ListenerKind.oneShot f =>
      if f.done then (false, l)
      else (true, ⟨l.matching, ListenerKind.oneShot (FutState.resolvedF response)⟩)
    | ListenerKind.callbackK cb =>
      match cb response with
      | Except.ok _ => (true, l)
      | Except.error _ => (true, l)

/-- Listener `cancel`: a one-shot cancels its future when not yet done; callback
listeners cannot be cancelled and are left unchanged. -/
def Listener.cancel (l : Listener) : Listener :=
  match l.kind with
  | ListenerKind.oneShot FutState.pending =>
    ⟨l.matching, ListenerKind.oneShot FutState.cancelledF⟩
  | _ => l

/-- The dispatch step of `frame_received` over a listener registry:
every listener is offered the command once, in registration order.  The
header-keyed registry of `api.py` is modelled flat: a listener stored
under a header only holds commands of that header, so `resolve`'s own
matching check subsumes the header lookup. -/
def dispatchCommand (reg : List Listener) (command : Command) : List Listener :=
  reg.map (fun l => (l.resolve command).2)

theorem resolve_resolved_unchanged (m : List Command) (r resp : Command) :
    Listener.resolve ⟨m, ListenerKind.oneShot (FutState.resolvedF r)⟩ resp
      = (false, ⟨m, ListenerKind.oneShot (FutState.resolvedF r)⟩) := by
  by_cases h : accepts m resp = true
  · simp [Listener.resolve, h, FutState.done]
  · simp [Listener.resolve, Bool.eq_false_iff.mpr h]

theorem resolve_pending_match (m : List Command) (resp : Command)
    (h : accepts m resp = true) :
    Listener.resolve ⟨m, ListenerKind.oneShot FutState.pending⟩ resp
      = (true, ⟨m, ListenerKind.oneShot (FutState.resolvedF resp)⟩) := by
  simp [Listener.resolve, h, FutState.done]

theorem resolve_no_match (l : Listener) (resp : Command)
    (h : accepts l.matching resp = false) :
    l.resolve resp = (false, l) := by
  simp [Listener.resolve, h]

/-- Claim C4: resolving a one-shot listener is idempotent.  The first
matching command sets the future and reports resolution (`true`); any
subsequent resolve call on the now-resolved listener reports
non-resolution (`false`) and leaves the recorded result unchanged, and
any further sequence of resolve calls leaves the listener fixed. -/
theorem c4_oneshot_resolve_idempotent (m : List Command) (resp resp' : Command)
    (h1 : accepts m resp = true) (h2 : accepts m resp' = true) :
    Listener.resolve ⟨m, ListenerKind.oneShot FutState.pending⟩ resp
      = (true, ⟨m, ListenerKind.oneShot (FutState.resolvedF resp)⟩) ∧
    Listener.resolve ⟨m, ListenerKind.oneShot (FutState.resolvedF resp)⟩ resp'
      = (false, ⟨m, ListenerKind.oneShot (FutState.resolvedF resp)⟩) ∧
    ∀ further : List Command,
      further.foldl (fun st c => (Listener.resolve st c).2)
          ⟨m, ListenerKind.oneShot (FutState.resolvedF resp)⟩
        = ⟨m, ListenerKind.oneShot (FutState.resolvedF resp)⟩ := by
  refine ⟨resolve_pending_match m resp h1, resolve_resolved_unchanged m resp resp', ?_⟩
  intro further
  induction further with
  | nil => rfl
  | cons c cs ih =>
    simp only [List.foldl_cons, resolve_resolved_unchanged]
    exact ih

/-- Claim C4 witness at concrete commands. -/
theorem c4_oneshot_resolve_idempotent_witness :
    accepts [(⟨0, [none]⟩ : Command)] ⟨0, [some (FieldVal.natV 1)]⟩ = true ∧
    accepts [(⟨0, [none]⟩ : Command)] ⟨0, [some (FieldVal.natV 2)]⟩ = true ∧
    (Listener.resolve ⟨[⟨0, [none]⟩], ListenerKind.oneShot FutState.pending⟩
        ⟨0, [some (FieldVal.natV 1)]⟩
      = (true, ⟨[⟨0, [none]⟩],
          ListenerKind.oneShot (FutState.resolvedF ⟨0, [some (FieldVal.natV 1)]⟩)⟩) ∧
     Listener.resolve
        ⟨[⟨0, [none]⟩],
          ListenerKind.oneShot (FutState.resolvedF ⟨0, [some (FieldVal.natV 1)]⟩)⟩
        ⟨0, [some (FieldVal.natV 2)]⟩
      = (false, ⟨[⟨0, [none]⟩],
          ListenerKind.oneShot (FutState.resolvedF ⟨0, [some (FieldVal.natV 1)]⟩)⟩) ∧
     ∀ further : List Command,
       further.foldl (fun st c => (Listener.resolve st c).2)
           ⟨[⟨0, [none]⟩],
             ListenerKind.oneShot (FutState.resolvedF ⟨0, [some (FieldVal.natV 1)]⟩)⟩
         = ⟨[⟨0, [none]⟩],
             ListenerKind.oneShot (FutState.resolvedF ⟨0, [some (FieldVal.natV 1)]⟩)⟩) :=
  ⟨by decide, by decide,
   c4_oneshot_resolve_idempotent [⟨0, [none]⟩] ⟨0, [some (FieldVal.natV 1)]⟩
     ⟨0, [some (FieldVal.natV 2)]⟩ (by decide) (by decide)⟩

/-- Claim C5: for a callback listener and a command matching it, any
exception raised by the user callback is caught: resolve reports success
and leaves the listener unchanged, and after a registry dispatch the
listener is still registered at its position, unchanged, ready for
future matches.  The quantification over `cb` covers callbacks that
raise (`Except.error`). -/
theorem c5_callback_exceptions_swallowed (m : List Command)
    (cb : Command → Except Unit Unit) (resp : Command)
    (h : accepts m resp = true) :
    Listener.resolve ⟨m, ListenerKind.callbackK cb⟩ resp
      = (true, ⟨m, ListenerKind.callbackK cb⟩) ∧
    ∀ (reg : List Listener) (i : Nat),
      reg[i]? = some ⟨m, ListenerKind.callbackK cb⟩ →
      (dispatchCommand reg resp)[i]? = some ⟨m, ListenerKind.callbackK cb⟩ := by
  have hres : Listener.resolve ⟨m, ListenerKind.callbackK cb⟩ resp
      = (true, ⟨m, ListenerKind.callbackK cb⟩) := by
    cases hcb : cb resp <;> simp [Listener.resolve, h, hcb]
  refine ⟨hres, ?_⟩
  intro reg i hi
  simp [dispatchCommand, List.getElem?_map, hi, hres]

/-- Claim C5 witness with a callback that raises on every invocation. -/
theorem c5_callback_exceptions_swallowed_witness :
    accepts [(⟨0, [none]⟩ : Command)] ⟨0, [some (FieldVal.natV 1)]⟩ = true ∧
    ([(⟨[⟨0, [none]⟩], ListenerKind.callbackK (fun _ => Except.error ())⟩ : Listener)][0]?
       = some ⟨[⟨0, [none]⟩], ListenerKind.callbackK (fun _ => Except.error ())⟩) ∧
    (Listener.resolve ⟨[⟨0, [none]⟩], ListenerKind.callbackK (fun _ => Except.error ())⟩
        ⟨0, [some (FieldVal.natV 1)]⟩
      = (true, ⟨[⟨0, [none]⟩], ListenerKind.callbackK (fun _ => Except.error ())⟩)) ∧
    (dispatchCommand [⟨[⟨0, [none]⟩], ListenerKind.callbackK (fun _ => Except.error ())⟩]
        ⟨0, [some (FieldVal.natV 1)]⟩)[0]?
      = some ⟨[⟨0, [none]⟩], ListenerKind.callbackK (fun _ => Except.error ())⟩ := by
  have h := c5_callback_exceptions_swallowed [⟨0, [none]⟩] (fun _ => Except.error ())
    ⟨0, [some (FieldVal.natV 1)]⟩ (by decide)
  exact ⟨by decide, rfl, h.1,
    h.2 [⟨[⟨0, [none]⟩], ListenerKind.callbackK (fun _ => Except.error ())⟩] 0 rfl⟩

/-- Metadata of a command class as `ZNP.request` consumes it: its header
identity, the header identity of its response class when it has one
(`None` models an AREQ-with-request, whose `Rsp` attribute is falsy),
and the number of fields of the response schema. -/
structure CommandClass where
  clsId : Nat
  rspClsId : Option Nat
  rspNumFields : Nat
deriving DecidableEq, Repr

/-- A concrete (complete) request instance of a command class. -/
structure Request where
  cls : CommandClass
  fields : List FieldVal
deriving DecidableEq, Repr

/-- Modelled from the spec: `to_frame` serialization of a complete
request.  Frames are identified with the serialized command (header
identity plus bound fields); the command round-trip invariant of the
spec (section 8) makes this identification faithful. -/
def toFrame (r : Request) : Command :=
  ⟨r.cls.clsId, r.fields.map some⟩

/-- The header identity of `RPCErrorCommands.CommandNotRecognized.Rsp`,
the distinguished SRSP with schema `(ErrorCode, RequestHeader)`. -/
def cnrClsId : Nat := 96

/-- Pattern `request.Rsp(partial=True)`: the fully unconstrained response
pattern registered by `ZNP.request`. -/
def anyRspPat (rspId numFields : Nat) : Command :=
  ⟨rspId, List.replicate numFields none⟩

/-- Pattern `CommandNotRecognized.Rsp(partial=True, RequestHeader=request.header)`:
`ErrorCode` absent, `RequestHeader` bound to the request's header. -/
def cnrPat (reqClsId : Nat) : Command :=
  ⟨cnrClsId, [none, some (FieldVal.natV reqClsId)]⟩

/-- The partial `Rsp` built from the caller's `Rsp*` keyword constraints
(`api.py`, `partial_response`), with parameters identified by response
field index: constrained fields bound, the rest absent. -/
def constrainedRsp (rspId numFields : Nat) (params : List (Nat × FieldVal)) : Command :=
  ⟨rspId, (List.range numFields).map (fun i => List.lookup i params)⟩

/-- Externally visible actions of the correlation core, recorded in
order: listener registration, lock acquisition, handing a frame to the
UART, awaiting the SRSP future, lock release, awaiting a callback
listener's future. -/
inductive Event
  | registerEv (matching : List Command)
  | acquireLockEv
  | sendEv (frame : Command)
  | awaitRspEv
  | releaseLockEv
  | awaitCallbackEv

/-- State of a `ZNP` instance as the claims need it: the listener
registry, the SREQ lock, the frames handed to the UART, and the trace of
recorded events. -/
structure ZNPState where
  listeners : List Listener
  lockHeld : Bool
  sent : List Command
  events : List Event

/-- Embedding of `ZNP.wait_for_responses`: register a fresh one-shot listener at the
end of the registry and hand back the index under which its future can
be read. -/
def wait_for_responses (st : ZNPState) (responses : List Command) : Nat × ZNPState :=
  (st.listeners.length,
   { st with
      listeners := st.listeners ++ [mkOneShot responses],
      events := st.events ++ [Event.registerEv (deduplicate_commands responses)] })

/-- Embedding of `ZNP.wait_for_response`: the single-command special case. -/
def wait_for_response (st : ZNPState) (response : Command) : Nat × ZNPState :=
  wait_for_responses st [response]

/-- Embedding of `ZNP.frame_received`: a decoded command is offered to every listener
in registration order. -/
def frame_received (st : ZNPState) (command : Command) : ZNPState :=
  { st with listeners := dispatchCommand st.listeners command }

/-- Handing a serialized frame to the UART (`self._uart.send`). -/
def sendFrame (st : ZNPState) (f : Command) : ZNPState :=
  { st with sent := st.sent ++ [f], events := st.events ++ [Event.sendEv f] }

/-- Suspension on `await response_future` recorded in the event trace. -/
def awaitNote (st : ZNPState) : ZNPState :=
  { st with events := st.events ++ [Event.awaitRspEv] }

/-- Leaving the `async with self._sync_request_lock` block. -/
def releaseLock (st : ZNPState) : ZNPState :=
  { st with lockHeld := false, events := st.events ++ [Event.releaseLockEv] }

/-- Reading the future of the one-shot listener at `idx`: `some c` when
it resolved with `c`, `none` while it is still pending. -/
def listenerResult (st : ZNPState) (idx : Nat) : Option Command :=
  (st.listeners[idx]?).bind (fun l =>
    match l.kind with
    | ListenerKind.oneShot (FutState.resolvedF c) => some c
    | _ => none)

/-- Failure modes of `ZNP.request`: the `ValueError` branches, the
field-error from constructing the partial `Rsp` with unknown
constraints, `CommandNotRecognized`, `InvalidCommandResponse`, and the
`asyncio` timeout. -/
inductive RequestError
  | valueError
  | fieldError
  | commandNotRecognized
  | invalidCommandResponse
  | timeoutError
deriving DecidableEq, Repr

/-- The matching commands of the one-shot listener `ZNP.request`
registers before sending an SREQ. -/
def sreqListenerPats (req : Request) (rspId : Nat) : List Command :=
  [anyRspPat rspId req.cls.rspNumFields, cnrPat req.cls.clsId]

/-- The synchronous prefix of the SREQ path of `ZNP.request`: acquire
the lock, register the response listener, hand the frame to the UART. -/
def sreqStart (st : ZNPState) (req : Request) (rspId : Nat) : ZNPState :=
  sendFrame
    ((wait_for_responses
        { st with lockHeld := true, events := st.events ++ [Event.acquireLockEv] }
        (sreqListenerPats req rspId)).2)
    (toFrame req)

/-- Embedding of `ZNP.request` from `api.py`.  `params` are the caller's `Rsp*`
constraints identified by response field index (the `Rsp` prefix
renaming of the Python keywords); `arrivals` are the frames the UART
delivers while the call awaits its response future, dispatched in
arrival order, so the future holds the first arrival matching the
registered listener.  An empty resolution after all arrivals models the
`async_timeout` expiry; the lock is released when the `async with`
block exits, on the success and failure paths alike. -/
def request (st : ZNPState) (req : Request) (params : List (Nat × FieldVal))
    (arrivals : List Command) : Except RequestError (Option Command) × ZNPState :=
  match req.cls.rspClsId with
  | none =>
    if params = [] then (Except.ok none, sendFrame st (toFrame req))
    else (Except.error RequestError.valueError, st)
  | some rspId =>
    if params.all (fun p => p.1 < req.cls.rspNumFields) then
      let pRsp := constrainedRsp rspId req.cls.rspNumFields params
      let st3 := awaitNote (arrivals.foldl frame_received (sreqStart st req rspId))
      match listenerResult st3 st.listeners.length with
      | none => (Except.error RequestError.timeoutError, releaseLock st3)
      | some resp =>
        let st4 := releaseLock st3
        if resp.cls == cnrClsId then
          (Except.error RequestError.commandNotRecognized, st4)
        else if pRsp.matches resp then (Except.ok (some resp), st4)
        else (Except.error RequestError.invalidCommandResponse, st4)
    else (Except.error RequestError.fieldError, st)

/-- Claim C6: an AREQ-with-request (no response class) with no caller
constraints is serialized and handed to the UART, and `request` returns
at once: no listener is registered, the lock is untouched, the event
trace records only the send, and the result does not depend on any
later arrivals (nothing is awaited). -/
theorem c6_areq_request_immediate (st : ZNPState) (req : Request)
    (h : req.cls.rspClsId = none) (arr1 arr2 : List Command) :
    request st req [] arr1 = (Except.ok none, sendFrame st (toFrame req)) ∧
    (request st req [] arr1).2.listeners = st.listeners ∧
    (request st req [] arr1).2.lockHeld = st.lockHeld ∧
    (request st req [] arr1).2.sent = st.sent ++ [toFrame req] ∧
    (request st req [] arr1).2.events = st.events ++ [Event.sendEv (toFrame req)] ∧
    request st req [] arr1 = request st req [] arr2 := by
  simp [request, h, sendFrame]

/-- Claim C6 witness: a concrete AREQ-with-request on the empty state,
with two different arrival streams. -/
theorem c6_areq_request_immediate_witness :
    (Request.cls ⟨⟨5, none, 0⟩, [FieldVal.natV 7]⟩).rspClsId = none ∧
    (request ⟨[], false, [], []⟩ ⟨⟨5, none, 0⟩, [FieldVal.natV 7]⟩ [] []
        = (Except.ok none,
            sendFrame ⟨[], false, [], []⟩ (toFrame ⟨⟨5, none, 0⟩, [FieldVal.natV 7]⟩)) ∧
      (request ⟨[], false, [], []⟩ ⟨⟨5, none, 0⟩, [FieldVal.natV 7]⟩ [] []).2.listeners = [] ∧
      (request ⟨[], false, [], []⟩ ⟨⟨5, none, 0⟩, [FieldVal.natV 7]⟩ [] []).2.lockHeld = false ∧
      (request ⟨[], false, [], []⟩ ⟨⟨5, none, 0⟩, [FieldVal.natV 7]⟩ [] []).2.sent
        = [] ++ [toFrame ⟨⟨5, none, 0⟩, [FieldVal.natV 7]⟩] ∧
      (request ⟨[], false, [], []⟩ ⟨⟨5, none, 0⟩, [FieldVal.natV 7]⟩ [] []).2.events
        = [] ++ [Event.sendEv (toFrame ⟨⟨5, none, 0⟩, [FieldVal.natV 7]⟩)] ∧
      request ⟨[], false, [], []⟩ ⟨⟨5, none, 0⟩, [FieldVal.natV 7]⟩ [] []
        = request ⟨[], false, [], []⟩ ⟨⟨5, none, 0⟩, [FieldVal.natV 7]⟩ []
            [⟨9, []⟩]) :=
  ⟨rfl,
   c6_areq_request_immediate ⟨[], false, [], []⟩ ⟨⟨5, none, 0⟩, [FieldVal.natV 7]⟩ rfl
     [] [⟨9, []⟩]⟩

/-- The evolution of a single listener offered a sequence of commands in
order. -/
def resolveFold (l : Listener) (cmds : List Command) : Listener :=
  cmds.foldl (fun acc c => (acc.resolve c).2) l

theorem foldl_frame_received (arrivals : List Command) (st : ZNPState) :
    arrivals.foldl frame_received st
      = { st with listeners := arrivals.foldl dispatchCommand st.listeners } := by
  induction arrivals generalizing st with
  | nil => rfl
  | cons c cs ih =>
    simp only [List.foldl_cons]
    rw [ih]
    rfl

theorem dispatchAll_getElem (cmds : List Command) :
    ∀ (reg : List Listener) (i : Nat),
      (cmds.foldl dispatchCommand reg)[i]?
        = (reg[i]?).map (fun l => resolveFold l cmds) := by
  induction cmds with
  | nil =>
    intro reg i
    cases h : reg[i]? <;> simp [resolveFold, h]
  | cons c cs ih =>
    intro reg i
    simp only [List.foldl_cons]
    rw [ih]
    cases h : reg[i]? with
    | none => simp [dispatchCommand, List.getElem?_map, h]
    | some l => simp [dispatchCommand, List.getElem?_map, h, resolveFold]

theorem sreqStart_listeners (st : ZNPState) (req : Request) (rspId : Nat) :
    (sreqStart st req rspId).listeners
      = st.listeners ++ [mkOneShot (sreqListenerPats req rspId)] := by
  simp [sreqStart, sendFrame, wait_for_responses]

/-- After the SREQ listener is registered and the arrivals are
dispatched, the response future read by `request` holds exactly the
evolution of the fresh listener under the arrival stream. -/
theorem request_future_reads_fresh_listener (st : ZNPState) (req : Request)
    (rspId : Nat) (arrivals : List Command) :
    listenerResult (awaitNote (arrivals.foldl frame_received (sreqStart st req rspId)))
        st.listeners.length
      = (match (resolveFold (mkOneShot (sreqListenerPats req rspId)) arrivals).kind with
         | ListenerKind.oneShot (FutState.resolvedF c) => some c
         | _ => none) := by
  rw [listenerResult]
  have hl : (awaitNote (arrivals.foldl frame_received (sreqStart st req rspId))).listeners
      = arrivals.foldl dispatchCommand (sreqStart st req rspId).listeners := by
    rw [foldl_frame_received]
    rfl
  rw [hl, dispatchAll_getElem, sreqStart_listeners]
  have hidx : (st.listeners ++ [mkOneShot (sreqListenerPats req rspId)])[st.listeners.length]?
      = some (mkOneShot (sreqListenerPats req rspId)) := by
    rw [List.getElem?_append_right (Nat.le_refl _)]
    simp
  rw [hidx]
  rfl

theorem resolveFold_single_match (pats : List Command) (resp : Command)
    (h : accepts (deduplicate_commands pats) resp = true) :
    resolveFold (mkOneShot pats) [resp]
      = ⟨deduplicate_commands pats,
          ListenerKind.oneShot (FutState.resolvedF resp)⟩ := by
  simp only [resolveFold, List.foldl_cons, List.foldl_nil, mkOneShot]
  rw [resolve_pending_match _ _ h]

/-- Claim C3: for an SREQ whose awaited response arrives, the outcome of
`request` is decided in order: a `CommandNotRecognized.Rsp` raises
*command-not-recognized*; otherwise a response that fails the caller's
partial-Rsp constraints raises *invalid-response*; otherwise the
response is returned. -/
theorem c3_sreq_response_outcome (st : ZNPState) (req : Request) (rspId : Nat)
    (params : List (Nat × FieldVal)) (resp : Command)
    (hr : req.cls.rspClsId = some rspId)
    (hp : params.all (fun p => p.1 < req.cls.rspNumFields) = true)
    (harr : (anyRspPat rspId req.cls.rspNumFields).matches resp = true ∨
            (cnrPat req.cls.clsId).matches resp = true) :
    (resp.cls = cnrClsId →
      (request st req params [resp]).1
        = Except.error RequestError.commandNotRecognized) ∧
    (resp.cls ≠ cnrClsId →
      (constrainedRsp rspId req.cls.rspNumFields params).matches resp = false →
      (request st req params [resp]).1
        = Except.error RequestError.invalidCommandResponse) ∧
    (resp.cls ≠ cnrClsId →
      (constrainedRsp rspId req.cls.rspNumFields params).matches resp = true →
      (request st req params [resp]).1 = Except.ok (some resp)) := by
  have hacc : accepts (deduplicate_commands (sreqListenerPats req rspId)) resp = true := by
    rw [deduplicate_preserves_accepts]
    simp only [sreqListenerPats, accepts, List.any_cons, List.any_nil, Bool.or_false]
    rcases harr with h | h <;> simp [h]
  have hres : listenerResult
      (awaitNote ([resp].foldl frame_received (sreqStart st req rspId)))
      st.listeners.length = some resp := by
    rw [request_future_reads_fresh_listener, resolveFold_single_match _ _ hacc]
  simp only [List.foldl_cons, List.foldl_nil] at hres
  refine ⟨?_, ?_, ?_⟩
  · intro hcnr
    simp [request, hr, hp, hres, hcnr]
  · intro hcnr hm
    simp [request, hr, hp, hres, hm, beq_eq_false_iff_ne.mpr hcnr]
  · intro hcnr hm
    simp [request, hr, hp, hres, hm, beq_eq_false_iff_ne.mpr hcnr]

/-- Claim C3 witness: a concrete SREQ (class 1, response class 2 with a
one-field schema, no caller constraints) answered by a matching
response. -/
theorem c3_sreq_response_outcome_witness :
    (request ⟨[], false, [], []⟩ ⟨⟨1, some 2, 1⟩, []⟩ []
        [⟨2, [some (FieldVal.natV 0)]⟩]).1
      = Except.ok (some ⟨2, [some (FieldVal.natV 0)]⟩) := by
  have h := c3_sreq_response_outcome ⟨[], false, [], []⟩ ⟨⟨1, some 2, 1⟩, []⟩ 2 []
    ⟨2, [some (FieldVal.natV 0)]⟩ rfl (by decide) (by left; decide)
  exact h.2.2 (by decide) (by decide)

theorem matches_cls_eq {a b : Command} (h : a.matches b = true) : a.cls = b.cls := by
  simp [Command.matches] at h
  exact h.1

theorem matches_cls_ne {a b : Command} (h : a.cls ≠ b.cls) : a.matches b = false := by
  simp [Command.matches, h]

/-- On the success path (`resp` resolved the listener, it is not a
`CommandNotRecognized` and it satisfies the caller's constraints),
`request` returns the response with the lock released. -/
theorem request_success_state (st : ZNPState) (req : Request) (rspId : Nat)
    (params : List (Nat × FieldVal)) (arrivals : List Command) (resp : Command)
    (hr : req.cls.rspClsId = some rspId)
    (hp : params.all (fun p => p.1 < req.cls.rspNumFields) = true)
    (hfold : (resolveFold (mkOneShot (sreqListenerPats req rspId)) arrivals).kind
      = ListenerKind.oneShot (FutState.resolvedF resp))
    (hcnr : resp.cls ≠ cnrClsId)
    (hm : (constrainedRsp rspId req.cls.rspNumFields params).matches resp = true) :
    request st req params arrivals
      = (Except.ok (some resp),
         releaseLock (awaitNote (arrivals.foldl frame_received (sreqStart st req rspId)))) := by
  have hres : listenerResult
      (awaitNote (arrivals.foldl frame_received (sreqStart st req rspId)))
      st.listeners.length = some resp := by
    rw [request_future_reads_fresh_listener, hfold]
  simp [request, hr, hp, hres, hm, beq_eq_false_iff_ne.mpr hcnr]

/-- Embedding of `ZNP.request_callback_rsp` from `api.py`: register the one-shot
listener for the callback pattern, then run the request (the request
coroutine's body only executes at `await response`, after the
registration), then await the callback listener's future.  `ok none`
models an await that would still be suspended because the callback has
not arrived. -/
def request_callback_rsp (st : ZNPState) (req : Request)
    (params : List (Nat × FieldVal)) (callbackPat : Command)
    (arrivals : List Command) : Except RequestError (Option Command) × ZNPState :=
  let reg := wait_for_response st callbackPat
  match request reg.2 req params arrivals with
  | (Except.error e, st2) => (Except.error e, st2)
  | (Except.ok _, st2) =>
    let st3 := { st2 with events := st2.events ++ [Event.awaitCallbackEv] }
    (Except.ok (listenerResult st3 reg.1), st3)

/-- Claim C7: `request_callback_rsp` registers the callback listener
before the request frame is sent, then awaits the synchronous response
and only afterwards awaits the callback listener, so an asynchronous
callback `cbA` arriving after transmission but before the response
`rsp` completes is still captured and returned.  The event trace makes
the ordering explicit: the callback registration precedes the send, and
the response await precedes the callback await. -/
theorem c7_request_callback_rsp_ordering (st : ZNPState) (req : Request)
    (rspId : Nat) (params : List (Nat × FieldVal))
    (callbackPat cbA rsp : Command)
    (hr : req.cls.rspClsId = some rspId)
    (hp : params.all (fun p => p.1 < req.cls.rspNumFields) = true)
    (hne : rspId ≠ cnrClsId)
    (hcb : callbackPat.matches cbA = true)
    (h1 : cbA.cls ≠ rspId) (h2 : cbA.cls ≠ cnrClsId)
    (h3 : (anyRspPat rspId req.cls.rspNumFields).matches rsp = true)
    (h4 : (constrainedRsp rspId req.cls.rspNumFields params).matches rsp = true) :
    (request_callback_rsp st req params callbackPat [cbA, rsp]).1
      = Except.ok (some cbA) ∧
    (request_callback_rsp st req params callbackPat [cbA, rsp]).2.events
      = st.events
        ++ [Event.registerEv (deduplicate_commands [callbackPat]),
            Event.acquireLockEv,
            Event.registerEv (deduplicate_commands (sreqListenerPats req rspId)),
            Event.sendEv (toFrame req),
            Event.awaitRspEv,
            Event.releaseLockEv,
            Event.awaitCallbackEv] := by
  have hrspcls : rsp.cls = rspId := (matches_cls_eq h3).symm
  have hcnr : rsp.cls ≠ cnrClsId := by rw [hrspcls]; exact hne
  -- the state after registering the callback listener
  have hst1 : (wait_for_response st callbackPat).2
      = { st with
            listeners := st.listeners ++ [mkOneShot [callbackPat]],
            events := st.events
              ++ [Event.registerEv (deduplicate_commands [callbackPat])] } := rfl
  -- the request's fresh listener ignores the callback arrival and then
  -- takes the response
  have hfold : (resolveFold (mkOneShot (sreqListenerPats req rspId)) [cbA, rsp]).kind
      = ListenerKind.oneShot (FutState.resolvedF rsp) := by
    have hacc1 : accepts (deduplicate_commands (sreqListenerPats req rspId)) cbA = false := by
      rw [deduplicate_preserves_accepts]
      simp only [sreqListenerPats, accepts, List.any_cons, List.any_nil, Bool.or_false]
      rw [matches_cls_ne (a := anyRspPat rspId req.cls.rspNumFields) (by simpa using h1.symm),
        matches_cls_ne (a := cnrPat req.cls.clsId) (by simpa [cnrPat] using h2.symm)]
      rfl
    have hacc2 : accepts (deduplicate_commands (sreqListenerPats req rspId)) rsp = true := by
      rw [deduplicate_preserves_accepts]
      simp only [sreqListenerPats, accepts, List.any_cons, List.any_nil, Bool.or_false]
      simp [h3]
    have e1 : Listener.resolve
        ⟨deduplicate_commands (sreqListenerPats req rspId),
          ListenerKind.oneShot FutState.pending⟩ cbA
        = (false, ⟨deduplicate_commands (sreqListenerPats req rspId),
            ListenerKind.oneShot FutState.pending⟩) :=
      resolve_no_match _ _ hacc1
    have e2 : Listener.resolve
        ⟨deduplicate_commands (sreqListenerPats req rspId),
          ListenerKind.oneShot FutState.pending⟩ rsp
        = (true, ⟨deduplicate_commands (sreqListenerPats req rspId),
            ListenerKind.oneShot (FutState.resolvedF rsp)⟩) :=
      resolve_pending_match _ _ hacc2
    simp [resolveFold, mkOneShot, e1, e2]
  -- the callback listener takes the first arrival and keeps it
  have hcbfold : resolveFold (mkOneShot [callbackPat]) [cbA, rsp]
      = ⟨deduplicate_commands [callbackPat],
          ListenerKind.oneShot (FutState.resolvedF cbA)⟩ := by
    have hacc : accepts (deduplicate_commands [callbackPat]) cbA = true := by
      rw [deduplicate_preserves_accepts]
      simp [accepts, hcb]
    have e1 : Listener.resolve
        ⟨deduplicate_commands [callbackPat], ListenerKind.oneShot FutState.pending⟩ cbA
        = (true, ⟨deduplicate_commands [callbackPat],
            ListenerKind.oneShot (FutState.resolvedF cbA)⟩) :=
      resolve_pending_match _ _ hacc
    simp [resolveFold, mkOneShot, e1, resolve_resolved_unchanged]
  have hreq := request_success_state ((wait_for_response st callbackPat).2) req rspId
    params [cbA, rsp] rsp hr hp hfold hcnr h4
  -- reading the callback future after the request completed
  have hlisteners : (releaseLock (awaitNote
      ([cbA, rsp].foldl frame_received
        (sreqStart ((wait_for_response st callbackPat).2) req rspId)))).listeners
      = [cbA, rsp].foldl dispatchCommand
          ((st.listeners ++ [mkOneShot [callbackPat]])
            ++ [mkOneShot (sreqListenerPats req rspId)]) := by
    rw [foldl_frame_received]
    simp [releaseLock, awaitNote, sreqStart_listeners, hst1]
  have hcbval : ∀ s : ZNPState,
      s.listeners = [cbA, rsp].foldl dispatchCommand
        ((st.listeners ++ [mkOneShot [callbackPat]])
          ++ [mkOneShot (sreqListenerPats req rspId)]) →
      listenerResult s st.listeners.length = some cbA := by
    intro s hs
    rw [listenerResult, hs, dispatchAll_getElem]
    have hidx : ((st.listeners ++ [mkOneShot [callbackPat]])
        ++ [mkOneShot (sreqListenerPats req rspId)])[st.listeners.length]?
        = some (mkOneShot [callbackPat]) := by
      rw [List.append_assoc, List.getElem?_append_right (Nat.le_refl _)]
      simp
    rw [hidx]
    simp [hcbfold]
  have hunfold : request_callback_rsp st req params callbackPat [cbA, rsp]
      = (Except.ok (listenerResult
          { releaseLock (awaitNote
              ([cbA, rsp].foldl frame_received
                (sreqStart ((wait_for_response st callbackPat).2) req rspId))) with
            events := (releaseLock (awaitNote
              ([cbA, rsp].foldl frame_received
                (sreqStart ((wait_for_response st callbackPat).2) req rspId)))).events
              ++ [Event.awaitCallbackEv] }
          st.listeners.length),
        { releaseLock (awaitNote
            ([cbA, rsp].foldl frame_received
              (sreqStart ((wait_for_response st callbackPat).2) req rspId))) with
          events := (releaseLock (awaitNote
            ([cbA, rsp].foldl frame_received
              (sreqStart ((wait_for_response st callbackPat).2) req rspId)))).events
            ++ [Event.awaitCallbackEv] }) := by
    simp only [request_callback_rsp]
    rw [hreq]
    rfl
  constructor
  · rw [hunfold]
    exact congrArg Except.ok (hcbval _ hlisteners)
  · rw [hunfold]
    show (releaseLock (awaitNote
        ([cbA, rsp].foldl frame_received
          (sreqStart ((wait_for_response st callbackPat).2) req rspId)))).events
        ++ [Event.awaitCallbackEv] = _
    rw [foldl_frame_received]
    simp [releaseLock, awaitNote, sreqStart, sendFrame, wait_for_responses,
      wait_for_response, hst1]

/-- Claim C7 witness: a concrete SREQ (class 1, response class 2) with a
callback pattern of class 3; the callback arrives before the response
and is still returned. -/
theorem c7_request_callback_rsp_ordering_witness :
    (request_callback_rsp ⟨[], false, [], []⟩ ⟨⟨1, some 2, 1⟩, []⟩ [] ⟨3, [none]⟩
        [⟨3, [some (FieldVal.natV 7)]⟩, ⟨2, [some (FieldVal.natV 0)]⟩]).1
      = Except.ok (some ⟨3, [some (FieldVal.natV 7)]⟩) ∧
    (request_callback_rsp ⟨[], false, [], []⟩ ⟨⟨1, some 2, 1⟩, []⟩ [] ⟨3, [none]⟩
        [⟨3, [some (FieldVal.natV 7)]⟩, ⟨2, [some (FieldVal.natV 0)]⟩]).2.events
      = []
        ++ [Event.registerEv (deduplicate_commands [⟨3, [none]⟩]),
            Event.acquireLockEv,
            Event.registerEv (deduplicate_commands
              (sreqListenerPats ⟨⟨1, some 2, 1⟩, []⟩ 2)),
            Event.sendEv (toFrame ⟨⟨1, some 2, 1⟩, []⟩),
            Event.awaitRspEv,
            Event.releaseLockEv,
            Event.awaitCallbackEv] :=
  c7_request_callback_rsp_ordering ⟨[], false, [], []⟩ ⟨⟨1, some 2, 1⟩, []⟩ 2 []
    ⟨3, [none]⟩ ⟨3, [some (FieldVal.natV 7)]⟩ ⟨2, [some (FieldVal.natV 0)]⟩
    rfl (by decide) (by decide) (by decide) (by decide) (by decide) (by decide)
    (by decide)

/-!
Claim C2 concerns the interleaving of two concurrent `ZNP.request`
calls on the SREQ path.  Each call is modelled as a process with the
suspension structure of the code: `await self._sync_request_lock`
(pc 0 → 1), then the synchronous register-and-send block ending in
`self._uart.send` (pc 1 → 2), then `await response_future` resolving by
success, `CommandNotRecognized`, `InvalidCommandResponse` or timeout
(pc 2 → 3), then leaving the `async with` block, which releases the
lock (pc 3 → 4).  The transition system permits arbitrary
interleavings of these steps, a superset of what the cooperative event
loop allows, so the serialization theorem holds a fortiori.
-/

/-- Observable events of the two-requester system: handing requester
`i`'s frame to the UART, and resolution of requester `i`'s response
future (by response arrival or timeout).  The two concurrent callers
are identified by a `Bool`. -/
inductive SEv
  | sendE (i : Bool)
  | resolveE (i : Bool)
deriving DecidableEq, Repr

/-- Trace automaton tracking which requester has sent but not yet
resolved: `some none` means no outstanding send, `some (some i)` means
requester `i` is outstanding, `none` means the trace violated
serialization. -/
def evStep : Option (Option Bool) → SEv → Option (Option Bool)
  | some none, SEv.sendE i => some (some i)
  | some (some _), SEv.sendE _ => none
  | some (some j), SEv.resolveE i => if i = j then some none else none
  | some none, SEv.resolveE _ => none
  | none, _ => none

/-- The trace automaton run over a whole trace. -/
def traceState (tr : List SEv) : Option (Option Bool) :=
  tr.foldl evStep (some none)

/-- Joint state of the two concurrent SREQ calls: per-process program
counter, the `asyncio.Lock` (holder or free), and the event trace so
far. -/
structure SState where
  pc : Bool → Nat
  lock : Option Bool
  tr : List SEv

/-- Which process currently has a sent-but-unresolved SREQ. -/
def outst (s : SState) : Option Bool :=
  if s.pc false = 2 then some false
  else if s.pc true = 2 then some true
  else none

/-- One scheduler step of the two-requester system. -/
inductive SStep : SState → SState → Prop
  | acquire (s : SState) (i : Bool) : s.pc i = 0 → s.lock = none →
      SStep s ⟨Function.update s.pc i 1, some i, s.tr⟩
  | sendS (s : SState) (i : Bool) : s.pc i = 1 →
      SStep s ⟨Function.update s.pc i 2, s.lock, s.tr ++ [SEv.sendE i]⟩
  | resolveS (s : SState) (i : Bool) : s.pc i = 2 →
      SStep s ⟨Function.update s.pc i 3, s.lock, s.tr ++ [SEv.resolveE i]⟩
  | releaseS (s : SState) (i : Bool) : s.pc i = 3 →
      SStep s ⟨Function.update s.pc i 4, none, s.tr⟩

/-- Both requests started, lock free, nothing sent. -/
def initS : SState := ⟨fun _ => 0, none, []⟩

/-- Reachability from the initial state. -/
inductive SReach : SState → Prop
  | init : SReach initS
  | step {s s' : SState} : SReach s → SStep s s' → SReach s'

/-- The inductive invariant: a process inside the critical section holds
the lock, and the trace automaton state agrees with the outstanding
process. -/
def SInv (s : SState) : Prop :=
  (∀ i : Bool, 1 ≤ s.pc i ∧ s.pc i ≤ 3 → s.lock = some i) ∧
  traceState s.tr = some (outst s)

theorem evStep_none (e : SEv) : evStep none e = none := by
  cases e <;> rfl

theorem foldl_evStep_none (l : List SEv) : l.foldl evStep none = none := by
  induction l with
  | nil => rfl
  | cons e es ih => simp [evStep_none, ih]

theorem traceState_append (tr : List SEv) (e : SEv) :
    traceState (tr ++ [e]) = evStep (traceState tr) e := by
  simp [traceState, List.foldl_append]

theorem outst_congr {s s' : SState} (h0 : s'.pc false = 2 ↔ s.pc false = 2)
    (h1 : s'.pc true = 2 ↔ s.pc true = 2) : outst s' = outst s := by
  by_cases hc : s.pc false = 2
  · simp [outst, hc, h0.mpr hc]
  · have hc' : ¬s'.pc false = 2 := fun hh => hc (h0.mp hh)
    by_cases hd : s.pc true = 2
    · simp [outst, hc, hc', hd, h1.mpr hd]
    · have hd' : ¬s'.pc true = 2 := fun hh => hd (h1.mp hh)
      simp [outst, hc, hc', hd, hd']

theorem outst_eq_none {s : SState} (h0 : s.pc false ≠ 2) (h1 : s.pc true ≠ 2) :
    outst s = none := by
  simp [outst, h0, h1]

theorem outst_eq_some {s : SState} {i : Bool} (hi : s.pc i = 2)
    (hother : ∀ k, k ≠ i → s.pc k ≠ 2) : outst s = some i := by
  cases i with
  | false => simp [outst, hi]
  | true =>
    have h0 : s.pc false ≠ 2 := hother false (by decide)
    simp [outst, h0, hi]

theorem reach_inv {s : SState} (h : SReach s) : SInv s := by
  induction h with
  | init =>
    constructor
    · intro i hi
      have h0 : initS.pc i = 0 := rfl
      omega
    · rfl
  | step hr hstep ih =>
    rcases ih with ⟨ihA, ihB⟩
    cases hstep with
    | acquire i h0 hl =>
      rename_i s
      have hpc : ∀ k, (Function.update s.pc i 1 k = 2) ↔ (s.pc k = 2) := by
        intro k
        by_cases hk : k = i
        · subst hk
          rw [Function.update_same]
          rw [show s.pc k = 0 from h0]
          omega
        · rw [Function.update_apply, if_neg hk]
      constructor
      · intro k hk
        show some i = some k
        by_cases hki : k = i
        · rw [hki]
        · have hk2 : Function.update s.pc i 1 k = s.pc k := by
            rw [Function.update_apply, if_neg hki]
          rw [show (⟨Function.update s.pc i 1, some i, s.tr⟩ : SState).pc k
              = Function.update s.pc i 1 k from rfl, hk2] at hk
          have := ihA k hk
          rw [this] at hl
          exact absurd hl (by simp)
      · show traceState s.tr = some (outst _)
        rw [outst_congr (hpc false) (hpc true)]
        exact ihB
    | sendS i h1 =>
      rename_i s
      have hlock : s.lock = some i := ihA i (by omega)
      have hother : ∀ k, k ≠ i → s.pc k ≠ 2 := by
        intro k hki hk2
        have hlk := ihA k (by omega)
        rw [hlk] at hlock
        exact hki (Option.some.inj hlock)
      have hnone : outst s = none := by
        cases i with
        | false => exact outst_eq_none (by omega) (hother true (by decide))
        | true => exact outst_eq_none (hother false (by decide)) (by omega)
      constructor
      · intro k hk
        show s.lock = some k
        by_cases hki : k = i
        · rw [hki]; exact hlock
        · rw [show (⟨Function.update s.pc i 2, s.lock, s.tr ++ [SEv.sendE i]⟩
              : SState).pc k = Function.update s.pc i 2 k from rfl,
            Function.update_apply, if_neg hki] at hk
          exact ihA k hk
      · show traceState (s.tr ++ [SEv.sendE i]) = some (outst _)
        rw [traceState_append, ihB, hnone]
        have houtst : outst ⟨Function.update s.pc i 2, s.lock, s.tr ++ [SEv.sendE i]⟩
            = some i := by
          apply outst_eq_some
          · show Function.update s.pc i 2 i = 2
            rw [Function.update_same]
          · intro k hki
            show Function.update s.pc i 2 k ≠ 2
            rw [Function.update_apply, if_neg hki]
            exact hother k hki
        rw [houtst]
        rfl
    | resolveS i h2 =>
      rename_i s
      have hlock : s.lock = some i := ihA i (by omega)
      have hother : ∀ k, k ≠ i → s.pc k ≠ 2 := by
        intro k hki hk2
        have hlk := ihA k (by omega)
        rw [hlk] at hlock
        exact hki (Option.some.inj hlock)
      have hsome : outst s = some i := outst_eq_some h2 hother
      constructor
      · intro k hk
        show s.lock = some k
        by_cases hki : k = i
        · rw [hki]; exact hlock
        · rw [show (⟨Function.update s.pc i 3, s.lock, s.tr ++ [SEv.resolveE i]⟩
              : SState).pc k = Function.update s.pc i 3 k from rfl,
            Function.update_apply, if_neg hki] at hk
          exact ihA k hk
      · show traceState (s.tr ++ [SEv.resolveE i]) = some (outst _)
        rw [traceState_append, ihB, hsome]
        have houtst : outst ⟨Function.update s.pc i 3, s.lock, s.tr ++ [SEv.resolveE i]⟩
            = none := by
          have hne : ∀ k, Function.update s.pc i 3 k ≠ 2 := by
            intro k
            by_cases hki : k = i
            · subst hki
              rw [Function.update_same]
              omega
            · rw [Function.update_apply, if_neg hki]
              exact hother k hki
          exact outst_eq_none (hne false) (hne true)
        rw [houtst]
        simp [evStep]
    | releaseS i h3 =>
      rename_i s
      have hlock : s.lock = some i := ihA i (by omega)
      have hpc : ∀ k, (Function.update s.pc i 4 k = 2) ↔ (s.pc k = 2) := by
        intro k
        by_cases hk : k = i
        · subst hk
          rw [Function.update_same]
          rw [show s.pc k = 3 from h3]
          omega
        · rw [Function.update_apply, if_neg hk]
      constructor
      · intro k hk
        by_cases hki : k = i
        · rw [show (⟨Function.update s.pc i 4, none, s.tr⟩ : SState).pc k
              = Function.update s.pc i 4 k from rfl,
            Function.update_apply, if_pos hki] at hk
          omega
        · rw [show (⟨Function.update s.pc i 4, none, s.tr⟩ : SState).pc k
              = Function.update s.pc i 4 k from rfl,
            Function.update_apply, if_neg hki] at hk
          have := ihA k hk
          rw [this] at hlock
          exact absurd (Option.some.inj hlock) hki
      · show traceState s.tr = some (outst _)
        rw [outst_congr (hpc false) (hpc true)]
        exact ihB

theorem resolve_mem_of_outstanding {t : List SEv} {i : Bool}
    (h : t.foldl evStep (some (some i)) = some none) : SEv.resolveE i ∈ t := by
  cases t with
  | nil => simp [List.foldl_nil] at h
  | cons e rest =>
    cases e with
    | sendE k =>
      rw [List.foldl_cons, show evStep (some (some i)) (SEv.sendE k) = none from rfl,
        foldl_evStep_none] at h
      exact absurd h (by simp)
    | resolveE k =>
      by_cases hki : k = i
      · rw [hki]
        exact List.mem_cons_self _ _
      · rw [List.foldl_cons, show evStep (some (some i)) (SEv.resolveE k) = none by
          simp [evStep, hki], foldl_evStep_none] at h
        exact absurd h (by simp)

theorem traceState_decomp {t1 t2 t3 : List SEv} {i j : Bool}
    {st : Option Bool}
    (h : traceState (t1 ++ SEv.sendE i :: (t2 ++ SEv.sendE j :: t3)) = some st) :
    SEv.resolveE i ∈ t2 := by
  rw [traceState, List.foldl_append, List.foldl_cons, List.foldl_append,
    List.foldl_cons] at h
  rcases ha : t1.foldl evStep (some none) with _ | a
  · rw [ha, evStep_none, foldl_evStep_none, evStep_none, foldl_evStep_none] at h
    exact absurd h (by simp)
  · rw [ha] at h
    rcases a with _ | k
    · rw [show evStep (some none) (SEv.sendE i) = some (some i) from rfl] at h
      rcases hb : t2.foldl evStep (some (some i)) with _ | b
      · rw [hb, evStep_none, foldl_evStep_none] at h
        exact absurd h (by simp)
      · rw [hb] at h
        rcases b with _ | m
        · exact resolve_mem_of_outstanding hb
        · rw [show evStep (some (some m)) (SEv.sendE j) = none from rfl,
            foldl_evStep_none] at h
          exact absurd h (by simp)
    · rw [show evStep (some (some k)) (SEv.sendE i) = none from rfl,
        foldl_evStep_none, evStep_none, foldl_evStep_none] at h
      exact absurd h (by simp)

/-- Claim C2: in every reachable interleaving of two concurrent SREQ
calls, whenever request `i`'s frame is handed to the UART before
request `j`'s frame, request `i`'s response future resolves (success,
command-not-recognized, invalid-response and timeout all resolve it)
strictly between the two sends: the second SREQ is never handed to the
UART until the first has resolved. -/
theorem c2_sreq_strictly_serialized (s : SState) (hs : SReach s)
    (t1 t2 t3 : List SEv) (i j : Bool)
    (htr : s.tr = t1 ++ SEv.sendE i :: (t2 ++ SEv.sendE j :: t3)) :
    SEv.resolveE i ∈ t2 := by
  have hinv := reach_inv hs
  have hB := hinv.2
  rw [htr] at hB
  exact traceState_decomp hB

/-- Claim C2 witness: the run acquire₀, send₀, resolve₀, release₀,
acquire₁, send₁ is reachable, and the theorem applied to its trace
places the first requester's resolution between the two sends. -/
theorem c2_sreq_strictly_serialized_witness :
    SEv.resolveE false ∈ [SEv.resolveE false] :=
  c2_sreq_strictly_serialized _
    (SReach.step
      (SReach.step
        (SReach.step
          (SReach.step
            (SReach.step
              (SReach.step SReach.init (SStep.acquire initS false rfl rfl))
              (SStep.sendS _ false rfl))
            (SStep.resolveS _ false rfl))
          (SStep.releaseS _ false rfl))
        (SStep.acquire _ true rfl rfl))
      (SStep.sendS _ true rfl))
    [] [SEv.resolveE false] [] false true rfl

/-- Outcome of one iteration of `ZNP._reconnect`: `connect()` raised,
`connect()` succeeded but `app.startup()` raised, or both succeeded. -/
inductive AttemptOutcome
  | failConnect
  | failStartup
  | success
deriving DecidableEq, Repr

/-- Observable actions of the reconnection loop: cancelling all
listeners, calling `connect()`, calling `app.startup()`, and sleeping
for the configured retry delay. -/
inductive REvent
  | cancelAllL
  | connectCall
  | startupCall
  | sleepDelay (d : Rat)
deriving DecidableEq, Repr

/-- The actions of a single `_reconnect` iteration (`api.py`): cancel
all listeners, try `connect()`, on success try `app.startup()`; any
exception is logged and followed by
`asyncio.sleep(auto_reconnect_retry_delay)`. -/
def attemptEvents (delay : Rat) : AttemptOutcome -> List REvent
  | AttemptOutcome.failConnect =>
    [REvent.cancelAllL, REvent.connectCall, REvent.sleepDelay delay]
  | AttemptOutcome.failStartup =>
    [REvent.cancelAllL, REvent.connectCall, REvent.startupCall,
      REvent.sleepDelay delay]
  | AttemptOutcome.success =>
    [REvent.cancelAllL, REvent.connectCall, REvent.startupCall]

/-- Embedding of `ZNP._reconnect`: iterate attempts, returning after the first
success.  The loop itself is unbounded (`itertools.count`); it is run
here against an oracle list of attempt outcomes, an arbitrarily long
but finite prefix of the loop's behaviour. -/
def reconnectEvents (delay : Rat) : List AttemptOutcome -> List REvent
  | [] => []
  | o :: rest =>
    attemptEvents delay o
      ++ (if o = AttemptOutcome.success then [] else reconnectEvents delay rest)

/-- Connection-level state of a `ZNP` instance: the listener registry,
whether a UART is attached, the spawned reconnection task (carrying the
retry delay it will use) and the two relevant configuration values. -/
structure ZnpConn where
  listeners : List Listener
  uartConnected : Bool
  reconnectTaskDelay : Option Rat
  autoReconnect : Bool
  retryDelay : Rat

/-- Embedding of `ZNP.connection_lost` from `api.py`: drop the UART, cancel every
registered listener, and unless auto-reconnect is disabled or the close
was graceful (`exc is None`), spawn the background `_reconnect()`
task. -/
def connection_lost (st : ZnpConn) (exc : Option Nat) : ZnpConn :=
  let st1 := { st with
    uartConnected := false,
    listeners := st.listeners.map Listener.cancel }
  if st.autoReconnect = false \/ exc = none then st1
  else { st1 with reconnectTaskDelay := some st.retryDelay }

/-- Claim C8: `connection_lost` cancels every registered listener in
all cases and drops the UART; it spawns the reconnection task exactly
when the disconnect was unexpected and auto-reconnect is enabled,
leaving the task slot unchanged on a graceful close or with
auto-reconnect disabled; and the spawned loop retries connect plus
startup indefinitely, any number of failed attempts each followed by a
sleep of the configured retry delay before the final successful
connect-and-startup. -/
theorem c8_connection_lost_reconnect (st : ZnpConn) (exc : Option Nat) :
    (connection_lost st exc).listeners = st.listeners.map Listener.cancel /\
    (connection_lost st exc).uartConnected = false /\
    (exc ≠ none ∧ st.autoReconnect = true →
      (connection_lost st exc).reconnectTaskDelay = some st.retryDelay) /\
    (exc = none ∨ st.autoReconnect = false →
      (connection_lost st exc).reconnectTaskDelay = st.reconnectTaskDelay) /\
    (∀ failures : List AttemptOutcome,
      (∀ o ∈ failures, o ≠ AttemptOutcome.success) →
      reconnectEvents st.retryDelay (failures ++ [AttemptOutcome.success])
        = (failures.map (attemptEvents st.retryDelay)).flatten
          ++ [REvent.cancelAllL, REvent.connectCall, REvent.startupCall]) /\
    (∀ o : AttemptOutcome, o ≠ AttemptOutcome.success →
      ∃ pre : List REvent,
        attemptEvents st.retryDelay o = pre ++ [REvent.sleepDelay st.retryDelay]) := by
  refine ⟨?_, ?_, ?_, ?_, ?_, ?_⟩
  · by_cases h : st.autoReconnect = false ∨ exc = none <;> simp [connection_lost, h]
  · by_cases h : st.autoReconnect = false ∨ exc = none <;> simp [connection_lost, h]
  · rintro ⟨hne, hauto⟩
    have hcond : ¬(st.autoReconnect = false ∨ exc = none) := by
      rintro (h | h)
      · rw [hauto] at h; simp at h
      · exact hne h
    simp [connection_lost, hcond]
  · intro h
    have hcond : st.autoReconnect = false ∨ exc = none := by
      rcases h with h | h
      · right; exact h
      · left; exact h
    simp [connection_lost, hcond]
  · intro failures hfail
    induction failures with
    | nil => simp [reconnectEvents, attemptEvents]
    | cons f fs ih =>
      have hf : f ≠ AttemptOutcome.success := hfail f (List.mem_cons_self _ _)
      have hfs : ∀ o ∈ fs, o ≠ AttemptOutcome.success :=
        fun o ho => hfail o (List.mem_cons_of_mem _ ho)
      simp only [List.cons_append, reconnectEvents, if_neg hf, List.map_cons,
        List.flatten_cons, List.append_assoc]
      rw [show fs.append [AttemptOutcome.success] = fs ++ [AttemptOutcome.success] from rfl,
        ih hfs]
  · intro o ho
    cases o with
    | failConnect => exact ⟨[REvent.cancelAllL, REvent.connectCall], rfl⟩
    | failStartup =>
      exact ⟨[REvent.cancelAllL, REvent.connectCall, REvent.startupCall], rfl⟩
    | success => exact absurd rfl ho

/-- Claim C8 witness: a concrete state with one pending one-shot
listener, an unexpected disconnect, and a two-failure reconnect run. -/
theorem c8_connection_lost_reconnect_witness :
    (connection_lost
        ⟨[⟨[⟨0, [none]⟩], ListenerKind.oneShot FutState.pending⟩], true, none, true, 5⟩
        (some 0)).listeners
      = [⟨[⟨0, [none]⟩], ListenerKind.oneShot FutState.pending⟩].map Listener.cancel /\
    (connection_lost
        ⟨[⟨[⟨0, [none]⟩], ListenerKind.oneShot FutState.pending⟩], true, none, true, 5⟩
        (some 0)).reconnectTaskDelay = some 5 /\
    reconnectEvents 5
        ([AttemptOutcome.failConnect, AttemptOutcome.failStartup]
          ++ [AttemptOutcome.success])
      = ([AttemptOutcome.failConnect, AttemptOutcome.failStartup].map
          (attemptEvents 5)).flatten
        ++ [REvent.cancelAllL, REvent.connectCall, REvent.startupCall] := by
  have h := c8_connection_lost_reconnect
    ⟨[⟨[⟨0, [none]⟩], ListenerKind.oneShot FutState.pending⟩], true, none, true, 5⟩
    (some 0)
  exact ⟨h.1, h.2.2.1 ⟨by simp, rfl⟩,
    h.2.2.2.2.1 [AttemptOutcome.failConnect, AttemptOutcome.failStartup] (by decide)⟩

/-- A Python value as the configuration schema sees it. -/
inductive PyValue
  | vNone
  | vInt (n : Int)
  | vReal (q : Rat)
  | vStr (s : String)
  | vBool (b : Bool)
deriving DecidableEq, Repr

/-- Validator `vol.Any(None, vol.All(int, vol.Range(min=-22, max=19)))` from
`config.py`: `None`, or an `int` within the inclusive voluptuous
range. -/
def validTxPower : PyValue -> Bool
  | PyValue.vNone => true
  | PyValue.vInt n => decide (-22 <= n) && decide (n <= 19)
  | _ => false

/-- Validator `VolPositiveNumber = vol.All(numbers.Real, vol.Range(min=0))` from
`config.py`: a number (integer or real) that is non-negative. -/
def validPositiveNumber : PyValue -> Bool
  | PyValue.vInt n => decide (0 <= n)
  | PyValue.vReal q => decide (0 <= q)
  | _ => false

/-- Modelled from the spec: zigpy's `cv_boolean` validator (imported by
`config.py`, not among the sources), per the configuration table of the
spec: the `auto_reconnect` key holds a boolean. -/
def cv_boolean : PyValue -> Bool
  | PyValue.vBool _ => true
  | _ => false

/-- The supplied `znp_config` section: each recognized key either absent
or mapped to a value. -/
structure ZnpConfigIn where
  tx_power : Option PyValue
  sreq_timeout : Option PyValue
  auto_reconnect : Option PyValue
  auto_reconnect_retry_delay : Option PyValue

/-- A validated `znp_config` section with all defaults filled in. -/
structure ZnpConfigOut where
  tx_power : PyValue
  sreq_timeout : PyValue
  auto_reconnect : PyValue
  auto_reconnect_retry_delay : PyValue
deriving DecidableEq, Repr

/-- Embedding of `vol.Optional(key, default=d)` with value schema `valid`: an absent
key takes the default, a present value must pass the validator. -/
def applyKey (v : Option PyValue) (dflt : PyValue) (valid : PyValue -> Bool) :
    Option PyValue :=
  match v with
  | none => some dflt
  | some x => if valid x then some x else none

/-- The `znp_config` subschema of `CONFIG_SCHEMA` (`config.py`):
`tx_power` defaults to `None`, `sreq_timeout` and
`auto_reconnect_retry_delay` default to `5`, `auto_reconnect` defaults
to `True`; `none` models a voluptuous `Invalid` error. -/
def validateZnpConfig (c : ZnpConfigIn) : Option ZnpConfigOut :=
  (applyKey c.tx_power PyValue.vNone validTxPower).bind (fun a =>
    (applyKey c.sreq_timeout (PyValue.vInt 5) validPositiveNumber).bind (fun b =>
      (applyKey c.auto_reconnect (PyValue.vBool true) cv_boolean).bind (fun d =>
        (applyKey c.auto_reconnect_retry_delay (PyValue.vInt 5)
            validPositiveNumber).map (fun e => ⟨a, b, d, e⟩))))

theorem applyKey_isSome (v : Option PyValue) (dflt : PyValue)
    (valid : PyValue -> Bool) :
    (applyKey v dflt valid).isSome = true ↔ (∀ x, v = some x → valid x = true) := by
  cases v with
  | none => simp [applyKey]
  | some x =>
    by_cases h : valid x = true
    · simp [applyKey, h]
    · simp [applyKey, h]

/-- Claim C9: the configuration schema accepts `tx_power` exactly as
`None` or an integer in `[-22, 19]`; it accepts `sreq_timeout` and
`auto_reconnect_retry_delay` exactly as non-negative numbers (integer
or real); missing keys default to `None`, `5`, `True` and `5`
respectively; and validation of a supplied section succeeds exactly
when every supplied value lies in its domain. -/
theorem c9_config_schema_domains :
    (∀ v : PyValue, validTxPower v = true ↔
      (v = PyValue.vNone ∨ ∃ n : Int, v = PyValue.vInt n ∧ -22 ≤ n ∧ n ≤ 19)) ∧
    (∀ v : PyValue, validPositiveNumber v = true ↔
      ((∃ n : Int, v = PyValue.vInt n ∧ 0 ≤ n) ∨
        (∃ q : Rat, v = PyValue.vReal q ∧ 0 ≤ q))) ∧
    (∀ v : PyValue, cv_boolean v = true ↔ ∃ b : Bool, v = PyValue.vBool b) ∧
    validateZnpConfig ⟨none, none, none, none⟩
      = some ⟨PyValue.vNone, PyValue.vInt 5, PyValue.vBool true, PyValue.vInt 5⟩ ∧
    (∀ c : ZnpConfigIn,
      (validateZnpConfig c).isSome = true ↔
        ((∀ v, c.tx_power = some v → validTxPower v = true) ∧
         (∀ v, c.sreq_timeout = some v → validPositiveNumber v = true) ∧
         (∀ v, c.auto_reconnect = some v → cv_boolean v = true) ∧
         (∀ v, c.auto_reconnect_retry_delay = some v →
            validPositiveNumber v = true))) := by
  refine ⟨?_, ?_, ?_, rfl, ?_⟩
  · intro v
    cases v <;> simp [validTxPower]
  · intro v
    cases v <;> simp [validPositiveNumber]
  · intro v
    cases v <;> simp [cv_boolean]
  · intro c
    rw [← applyKey_isSome c.tx_power PyValue.vNone validTxPower,
      ← applyKey_isSome c.sreq_timeout (PyValue.vInt 5) validPositiveNumber,
      ← applyKey_isSome c.auto_reconnect (PyValue.vBool true) cv_boolean,
      ← applyKey_isSome c.auto_reconnect_retry_delay (PyValue.vInt 5)
        validPositiveNumber]
    rcases h1 : applyKey c.tx_power PyValue.vNone validTxPower with _ | a <;>
      rcases h2 : applyKey c.sreq_timeout (PyValue.vInt 5) validPositiveNumber
        with _ | b <;>
      rcases h3 : applyKey c.auto_reconnect (PyValue.vBool true) cv_boolean
        with _ | d <;>
      rcases h4 : applyKey c.auto_reconnect_retry_delay (PyValue.vInt 5)
        validPositiveNumber with _ | e <;>
      simp [validateZnpConfig, h1, h2, h3, h4]

/-- The argument of `nvram_write`: either an instance of a `BaseNvIds`
enum (carrying its table's values and its own value), or a plain
integer, which the explicit `isinstance` check rejects. -/
inductive NvArg
  | ofTable (table : List Nat) (id : Nat)
  | rawInt (n : Nat)
deriving DecidableEq, Repr

/-- The command class of `SysCommands.OSALNVWrite`: an SREQ whose
request schema is `(Id, Offset, Value)` and whose response is the
one-field `STATUS_SCHEMA`. -/
def osalNvWriteCls : CommandClass := ⟨33, some 34, 1⟩

/-- Value `t.Status.Success` as a response field value. -/
def successVal : FieldVal := FieldVal.natV 0

/-- Embedding of `all_enum_values.sort(key=lambda i: i.value)` from `nvram_write`. -/
def sortNvIds (table : List Nat) : List Nat := table.mergeSort

/-- Embedding of `ZNP.nvram_write` from `api.py`: reject a non-`BaseNvIds` argument
with `ValueError`; look up the id's position in the value-sorted table;
if it is the last entry, skip the overflow check (a warning is logged);
otherwise reject with `ValueError` any write whose end address
`nv_id + offset + len(value)` exceeds the next NVID; finally issue
`OSALNVWrite.Req(Id, Offset, Value)` requiring `RspStatus=Success`.
The unreachable `none` branch mirrors the `ValueError` that
`list.index` would raise if the id were not in its own table. -/
def nvram_write (st : ZNPState) (arg : NvArg) (value : List Nat) (offset : Nat)
    (arrivals : List Command) : Except RequestError (Option Command) × ZNPState :=
  match arg with
  | NvArg.rawInt _ => (Except.error RequestError.valueError, st)
  | NvArg.ofTable table id =>
    let sorted := sortNvIds table
    let index := sorted.indexOf id
    if index = sorted.length - 1 then
      request st ⟨osalNvWriteCls,
          [FieldVal.natV id, FieldVal.natV offset, FieldVal.bytesV value]⟩
        [(0, successVal)] arrivals
    else
      match sorted[index + 1]? with
      | some nxt =>
        if id + offset + value.length > nxt then
          (Except.error RequestError.valueError, st)
        else
          request st ⟨osalNvWriteCls,
              [FieldVal.natV id, FieldVal.natV offset, FieldVal.bytesV value]⟩
            [(0, successVal)] arrivals
      | none => (Except.error RequestError.valueError, st)

theorem sortNvIds_perm (table : List Nat) : (sortNvIds table).Perm table :=
  List.mergeSort_perm table _

theorem sortNvIds_sorted (table : List Nat) :
    List.Sorted (· ≤ ·) (sortNvIds table) :=
  List.sorted_mergeSort' table

theorem sortNvIds_strict (table : List Nat) (hnd : table.Nodup) :
    List.Pairwise (· < ·) (sortNvIds table) := by
  have hnds : (sortNvIds table).Nodup := ((sortNvIds_perm table).nodup_iff).mpr hnd
  have hle : List.Pairwise (· ≤ ·) (sortNvIds table) := sortNvIds_sorted table
  exact (hle.and hnds).imp (fun hab => lt_of_le_of_ne hab.1 hab.2)

/-- In a nodup table, the entry after `id` in the value-sorted order is
exactly the least table entry strictly greater than `id`. -/
theorem sortNvIds_next_char (table : List Nat) (id nxt : Nat)
    (hnd : table.Nodup) (hmem : id ∈ table) (hnmem : nxt ∈ table)
    (hlt : id < nxt) (hmin : ∀ x ∈ table, id < x → nxt ≤ x) :
    (sortNvIds table).indexOf id + 1 < (sortNvIds table).length ∧
    (sortNvIds table)[(sortNvIds table).indexOf id + 1]? = some nxt := by
  have hperm := sortNvIds_perm table
  have hstrict := sortNvIds_strict table hnd
  have hms : id ∈ sortNvIds table := (hperm.mem_iff).mpr hmem
  have hns : nxt ∈ sortNvIds table := (hperm.mem_iff).mpr hnmem
  have hilt : (sortNvIds table).indexOf id < (sortNvIds table).length :=
    List.indexOf_lt_length.mpr hms
  have hgi : (sortNvIds table).get ⟨(sortNvIds table).indexOf id, hilt⟩ = id :=
    List.getElem_indexOf hilt
  obtain ⟨k, hk, hgk0⟩ := List.mem_iff_getElem.mp hns
  have hgk : (sortNvIds table).get ⟨k, hk⟩ = nxt := hgk0
  have hpair : ∀ (a b : Nat) (ha : a < (sortNvIds table).length)
      (hb : b < (sortNvIds table).length), a < b →
      (sortNvIds table).get ⟨a, ha⟩ < (sortNvIds table).get ⟨b, hb⟩ := by
    intro a b ha hb hab
    exact List.pairwise_iff_getElem.mp hstrict a b ha hb hab
  have hki : (sortNvIds table).indexOf id < k := by
    rcases Nat.lt_trichotomy k ((sortNvIds table).indexOf id) with h | h | h
    · have := hpair k _ hk hilt h
      rw [hgk, hgi] at this
      omega
    · subst h
      rw [hgi] at hgk
      omega
    · exact h
  have hlen : (sortNvIds table).indexOf id + 1 < (sortNvIds table).length := by
    omega
  refine ⟨hlen, ?_⟩
  have hy_mem : (sortNvIds table).get ⟨(sortNvIds table).indexOf id + 1, hlen⟩
      ∈ table :=
    (hperm.mem_iff).mp (List.get_mem _ _ _)
  have hy_gt : id < (sortNvIds table).get ⟨(sortNvIds table).indexOf id + 1, hlen⟩ := by
    have := hpair _ _ hilt hlen (Nat.lt_succ_self _)
    rwa [hgi] at this
  have hy_ge : nxt ≤ (sortNvIds table).get ⟨(sortNvIds table).indexOf id + 1, hlen⟩ :=
    hmin _ hy_mem hy_gt
  have hy_le : (sortNvIds table).get ⟨(sortNvIds table).indexOf id + 1, hlen⟩ ≤ nxt := by
    rcases Nat.lt_or_ge ((sortNvIds table).indexOf id + 1) k with h | h
    · have := hpair _ _ hlen hk h
      rw [hgk] at this
      omega
    · have hek : k = (sortNvIds table).indexOf id + 1 := by omega
      subst hek
      have heq : (sortNvIds table).get ⟨(sortNvIds table).indexOf id + 1, hlen⟩
          = nxt := hgk
      omega
  rw [List.getElem?_eq_getElem hlen]
  congr 1
  show (sortNvIds table).get ⟨(sortNvIds table).indexOf id + 1, hlen⟩ = nxt
  omega

/-- When `id` is numerically last in its table, it sorts to the last
position. -/
theorem sortNvIds_last (table : List Nat) (id : Nat)
    (hnd : table.Nodup) (hmem : id ∈ table) (hmax : ∀ x ∈ table, x ≤ id) :
    (sortNvIds table).indexOf id = (sortNvIds table).length - 1 := by
  have hperm := sortNvIds_perm table
  have hstrict := sortNvIds_strict table hnd
  have hms : id ∈ sortNvIds table := (hperm.mem_iff).mpr hmem
  have hilt : (sortNvIds table).indexOf id < (sortNvIds table).length :=
    List.indexOf_lt_length.mpr hms
  have hgi : (sortNvIds table).get ⟨(sortNvIds table).indexOf id, hilt⟩ = id :=
    List.getElem_indexOf hilt
  by_contra hne
  have hlen : (sortNvIds table).indexOf id + 1 < (sortNvIds table).length := by
    omega
  have hy_gt : id < (sortNvIds table).get ⟨(sortNvIds table).indexOf id + 1, hlen⟩ := by
    have hlt2 : (sortNvIds table).get ⟨(sortNvIds table).indexOf id, hilt⟩
        < (sortNvIds table).get ⟨(sortNvIds table).indexOf id + 1, hlen⟩ :=
      List.pairwise_iff_getElem.mp hstrict _ _ hilt hlen (Nat.lt_succ_self _)
    rw [hgi] at hlt2
    exact hlt2
  have hy_mem : (sortNvIds table).get ⟨(sortNvIds table).indexOf id + 1, hlen⟩
      ∈ table :=
    (hperm.mem_iff).mp (List.get_mem _ _ _)
  have := hmax _ hy_mem
  omega

/-- Claim C10: `nvram_write` raises `ValueError` without touching the
state when the id argument is not a `BaseNvIds` instance; when the id
is not the numerically last entry of its table and the end address
`id + offset + len(value)` exceeds the numerically next NVID (the least
table entry above `id`), it raises `ValueError` without sending; in
every other case it delegates to `request` with
`OSALNVWrite.Req(Id=id, Offset=offset, Value=value)` and the
`RspStatus=Success` constraint. -/
theorem c10_nvram_write_behaviour (st : ZNPState) (value : List Nat)
    (offset : Nat) (arrivals : List Command) :
    (∀ n : Nat, nvram_write st (NvArg.rawInt n) value offset arrivals
      = (Except.error RequestError.valueError, st)) ∧
    (∀ (table : List Nat) (id nxt : Nat), table.Nodup → id ∈ table →
      nxt ∈ table → id < nxt → (∀ x ∈ table, id < x → nxt ≤ x) →
      ((id + offset + value.length > nxt →
        nvram_write st (NvArg.ofTable table id) value offset arrivals
          = (Except.error RequestError.valueError, st)) ∧
       (id + offset + value.length ≤ nxt →
        nvram_write st (NvArg.ofTable table id) value offset arrivals
          = request st ⟨osalNvWriteCls,
              [FieldVal.natV id, FieldVal.natV offset, FieldVal.bytesV value]⟩
              [(0, successVal)] arrivals))) ∧
    (∀ (table : List Nat) (id : Nat), table.Nodup → id ∈ table →
      (∀ x ∈ table, x ≤ id) →
      nvram_write st (NvArg.ofTable table id) value offset arrivals
        = request st ⟨osalNvWriteCls,
            [FieldVal.natV id, FieldVal.natV offset, FieldVal.bytesV value]⟩
            [(0, successVal)] arrivals) := by
  refine ⟨fun n => rfl, ?_, ?_⟩
  · intro table id nxt hnd hmem hnmem hlt hmin
    obtain ⟨hlen, hnext⟩ := sortNvIds_next_char table id nxt hnd hmem hnmem hlt hmin
    have hne : ¬((sortNvIds table).indexOf id = (sortNvIds table).length - 1) := by
      omega
    constructor
    · intro hover
      simp only [nvram_write, if_neg hne, hnext]
      rw [if_pos hover]
    · intro hok
      simp only [nvram_write, if_neg hne, hnext]
      rw [if_neg (by omega)]
  · intro table id hnd hmem hmax
    have hlast := sortNvIds_last table id hnd hmem hmax
    simp only [nvram_write, if_pos hlast]

/-- Claim C10 witness: table `[2, 10]`; a raw integer is rejected, a
write of nine bytes at id 2 overflows into 10 and is rejected, a write
of three bytes goes through to `request`, and a write at the last
entry 10 skips the check. -/
theorem c10_nvram_write_behaviour_witness :
    (nvram_write ⟨[], false, [], []⟩ (NvArg.rawInt 7) [1, 2, 3] 0 []
      = (Except.error RequestError.valueError, ⟨[], false, [], []⟩)) ∧
    (nvram_write ⟨[], false, [], []⟩ (NvArg.ofTable [2, 10] 2) [1, 2, 3, 4, 5, 6, 7, 8, 9] 0 []
      = (Except.error RequestError.valueError, ⟨[], false, [], []⟩)) ∧
    (nvram_write ⟨[], false, [], []⟩ (NvArg.ofTable [2, 10] 2) [1, 2, 3] 0 []
      = request ⟨[], false, [], []⟩ ⟨osalNvWriteCls,
          [FieldVal.natV 2, FieldVal.natV 0, FieldVal.bytesV [1, 2, 3]]⟩
          [(0, successVal)] []) ∧
    (nvram_write ⟨[], false, [], []⟩ (NvArg.ofTable [2, 10] 10) [1, 2, 3] 0 []
      = request ⟨[], false, [], []⟩ ⟨osalNvWriteCls,
          [FieldVal.natV 10, FieldVal.natV 0, FieldVal.bytesV [1, 2, 3]]⟩
          [(0, successVal)] []) := by
  refine ⟨?_, ?_, ?_, ?_⟩
  · exact (c10_nvram_write_behaviour ⟨[], false, [], []⟩ [1, 2, 3] 0 []).1 7
  · exact ((c10_nvram_write_behaviour ⟨[], false, [], []⟩
      [1, 2, 3, 4, 5, 6, 7, 8, 9] 0 []).2.1 [2, 10] 2 10 (by decide) (by decide)
      (by decide) (by decide) (by decide)).1 (by decide)
  · exact ((c10_nvram_write_behaviour ⟨[], false, [], []⟩ [1, 2, 3] 0 []).2.1
      [2, 10] 2 10 (by decide) (by decide) (by decide) (by decide) (by decide)).2
      (by decide)
  · exact (c10_nvram_write_behaviour ⟨[], false, [], []⟩ [1, 2, 3] 0 []).2.2
      [2, 10] 10 (by decide) (by decide) (by decide)

end Znp
